import Mathlib

/-!
# Verification of the GPU-aware preemption/retrieval scheduler core

Shallow embedding of the repository's two source files:

* `pkg/scheduler/framework/preemption` (the evaluator: `Dynamic`, `Retrieve`,
  `DryRunPreemption`, `pickOneNodeForPreemption`, `MPIJobScaling`,
  `idleGPUsinNodes`, helpers), and
* `pkg/scheduler/framework/plugins/queuesort/priority_sort.go`
  (`PrioritySort.Less`, `checkMPIJob`).

Cluster-API calls (pod listers, the dynamic MPIJob client) are represented by
explicit data passed to the functions: a node carries the pods bound to it, the
MPIJob store is a list of job records, and the cluster-residency query of the
queue-sort plugin is a boolean function on job names.  Timestamps are modelled
as naturals (RFC3339 values already parsed; an annotation that is present but
unparseable is not modelled).  Go's `float64` throughput tables are modelled as
rational-valued tables, with Go's `int(·)` float-to-int conversion modelled by
truncation toward zero.  Go functions that can panic at runtime are embedded
with an `Option` result, `none` marking the panic.
-/

namespace KubeSched

/-- A workload (pod), restricted to the fields the embedded code reads.
`gpuRequest` is the `nvidia.com/gpu` request resulting from the source's
loop over `Spec.Containers` (the value of the last container; `0` when the
resource is absent, which is Go's zero `Quantity`).  `retractCheckVar` is the
already-parsed `retract-check-var` annotation, `schedulingState` the
`scheduling-state` annotation and `modelName` the `model-name` annotation
(`""` when absent, which is Go's map default). -/
structure Pod where
  name : String
  schedulingState : Option String
  retractCheckVar : Option Nat
  modelName : String
  creationTimestamp : Nat
  gpuRequest : Nat
deriving DecidableEq, Inhabited, Repr

/-- A node: GPU capacity plus the pods bound to it (what the source obtains
through `Pods("").List` with the `spec.nodeName` field selector). -/
structure NodeM where
  name : String
  capacityGpu : Nat
  pods : List Pod
deriving DecidableEq, Inhabited, Repr

/-- An MPIJob custom resource, restricted to the fields the code reads:
`spec.mpiReplicaSpecs.Worker.replicas`, and the `model-name` / `scale-out`
annotations (`scaleOut = none` models an absent annotation). -/
structure MPIJob where
  name : String
  modelName : String
  scaleOut : Option String
  replicas : Int
deriving DecidableEq, Inhabited, Repr

/-- The throughput table `scalableModelData : model-name -> replicas -> value`,
rational-valued in place of Go's `float64`.  Total in the index so that the
embedding stays a function; the source only indexes it inside `[0, 5]`. -/
def ThroughputTable : Type := String → Int → ℚ

/-- Go's `int(x)` conversion of a float: truncation toward zero.  For a
rational `num/den` (`den > 0`, reduced) this is T-division of `num` by `den`. -/
def ratTrunc (q : ℚ) : Int := Int.tdiv q.num (q.den : Int)

/-- Digit-string accumulator for `strconv.Atoi`. -/
def decDigitsAux : Nat → List Char → Option Nat
  | acc, [] => some acc
  | acc, c :: cs => if c.isDigit then decDigitsAux (acc * 10 + (c.toNat - 48)) cs else none

/-- `strconv.Atoi` as used by the source: on any parse error the returned
value `0` is used (the error is discarded at the call sites). -/
def atoi (s : String) : Int :=
  match s.data with
  | [] => 0
  | '-' :: cs => -(((decDigitsAux 0 cs).getD 0 : Nat) : Int)
  | '+' :: cs => (((decDigitsAux 0 cs).getD 0 : Nat) : Int)
  | cs => (((decDigitsAux 0 cs).getD 0 : Nat) : Int)

/-- `getPodTimestamp`: the parsed `retract-check-var` annotation when present,
otherwise the creation timestamp. -/
def getPodTimestamp (p : Pod) : Nat :=
  match p.retractCheckVar with
  | some t => t
  | none => p.creationTimestamp

/-- The pods gathered in Phase A of `Retrieve`: across all nodes, pods whose
`scheduling-state` annotation equals `"backfilled"` and whose
`getPodTimestamp` is strictly later than the preemptor's. -/
def backfilledPodsOf (podNow : Pod) (nodes : List NodeM) : List Pod :=
  (nodes.flatMap (·.pods)).filter
    (fun q => q.schedulingState == some "backfilled" &&
      decide (getPodTimestamp podNow < getPodTimestamp q))

/-- Zero value the dynamic client would yield for a missing job; its
`scaleOut` is absent, so it can never become a scale-down candidate. -/
def defaultMPIJob : MPIJob := ⟨"", "", none, 0⟩

/-- `GetMPIJob` against an explicit job store. -/
def getMPIJob (jobs : List MPIJob) (n : String) : MPIJob :=
  (jobs.find? (fun j => j.name == n)).getD defaultMPIJob

/-- The scale-down candidates of Phase A: running MPIJobs whose annotations
contain `scale-out`. -/
def scaleOutJobsOf (jobs : List MPIJob) (running : List String) : List MPIJob :=
  (running.map (getMPIJob jobs)).filter (fun j => j.scaleOut.isSome)

/-- A reclaim-candidate tuple; the source stores it as the `[]int`
`[kind, index, gpus, cost]` with `kind = 0` for retraction and `1` for
scale-down. -/
structure RCand where
  kind : Nat
  idx : Nat
  gpus : Int
  cost : Int
deriving DecidableEq, Inhabited, Repr

/-- Cost of a retract candidate: `int(scalableModelData[model(Q)][gpuRequest(Q)])`. -/
def retractCost (table : ThroughputTable) (q : Pod) : Int :=
  ratTrunc (table q.modelName (q.gpuRequest : Int))

/-- GPUs contributed by a scale-down candidate: `strconv.Atoi(annotations["scale-out"])`. -/
def scaleDownGpus (j : MPIJob) : Int := atoi (j.scaleOut.getD "")

/-- Cost of a scale-down candidate: `int(T[replicas] - T[replicas - scaleOut])`. -/
def scaleDownCost (table : ThroughputTable) (j : MPIJob) : Int :=
  ratTrunc (table j.modelName j.replicas - table j.modelName (j.replicas - scaleDownGpus j))

/-- The retract-candidate tuples, indexed from `i` (the source builds them with
`backfilledInfo = [0, i, gpus, cost]`). -/
def buildRetractCands (table : ThroughputTable) : Nat → List Pod → List RCand
  | _, [] => []
  | i, q :: rest =>
    ⟨0, i, (q.gpuRequest : Int), retractCost table q⟩ :: buildRetractCands table (i + 1) rest

/-- The scale-down-candidate tuples, indexed from `i` (`scaleInfo = [1, i, gpus, cost]`). -/
def buildScaleCands (table : ThroughputTable) : Nat → List MPIJob → List RCand
  | _, [] => []
  | i, j :: rest =>
    ⟨1, i, scaleDownGpus j, scaleDownCost table j⟩ :: buildScaleCands table (i + 1) rest

/-- `retrieveCandidates`: retract candidates followed by scale-down candidates. -/
def retrieveCandidatesOf (table : ThroughputTable) (podNow : Pod) (nodes : List NodeM)
    (jobs : List MPIJob) (running : List String) : List RCand :=
  buildRetractCands table 0 (backfilledPodsOf podNow nodes) ++
    buildScaleCands table 0 (scaleOutJobsOf jobs running)

/-- Ascending-cost comparison used by the first `sort.SliceStable`. -/
def leCost (a b : RCand) : Prop := a.cost ≤ b.cost

/-- Ascending-GPUs comparison used by the second `sort.SliceStable`. -/
def leGpus (a b : RCand) : Prop := a.gpus ≤ b.gpus

instance : DecidableRel leCost := fun a b => inferInstanceAs (Decidable (a.cost ≤ b.cost))

instance : DecidableRel leGpus := fun a b => inferInstanceAs (Decidable (a.gpus ≤ b.gpus))

instance : IsTotal RCand leCost := ⟨fun a b => Int.le_total a.cost b.cost⟩

instance : IsTotal RCand leGpus := ⟨fun a b => Int.le_total a.gpus b.gpus⟩

instance : IsTrans RCand leCost := ⟨fun _ _ _ h h' => Int.le_trans h h'⟩

instance : IsTrans RCand leGpus := ⟨fun _ _ _ h h' => Int.le_trans h h'⟩

/-- The two stable sorts of Phase B: stably by cost ascending, then stably by
GPUs ascending.  Go's `sort.SliceStable` is modelled by the stable
`List.insertionSort` (a stable sort is extensionally unique for a total
preorder, so any stable algorithm yields this list). -/
def sortCandidates (l : List RCand) : List RCand :=
  List.insertionSort leGpus (List.insertionSort leCost l)

/-- The ordering the spec asserts for the fully sorted candidate list:
primarily smallest GPUs, ties broken by smallest cost. -/
def leGpusCost (a b : RCand) : Prop :=
  a.gpus < b.gpus ∨ (a.gpus = b.gpus ∧ a.cost ≤ b.cost)

/-- The greedy selection of Phase B: walk the sorted candidates, subtracting
each `gpus` from the outstanding need, and keep the prefix up to (and
including) the first candidate that drives the need to `≤ 0`; `none` when the
whole list cannot cover the need.  This captures both passes of the source
(the feasibility check and the application loop select the same prefix). -/
def selectPrefix : Int → List RCand → Option (List RCand)
  | _, [] => none
  | need, c :: rest =>
    if need - c.gpus ≤ 0 then some [c]
    else (selectPrefix (need - c.gpus) rest).map (c :: ·)

/-- An action applied by Phase B: retract a backfilled pod, or scale an
elastic job by `delta` workers. -/
inductive RAction where
  | retract (p : Pod)
  | scale (jobName : String) (delta : Int)
deriving DecidableEq, Repr

/-- The action the application loop performs for one selected candidate:
`kind = 0` retracts `backfilledPods[idx]`; otherwise the source calls
`MPIJobScaling(ctx, "my-ns", "tensorflow-mnist-elastic", -gpus)` with the job
name hard-coded. -/
def candAction (backfilled : List Pod) (c : RCand) : RAction :=
  if c.kind = 0 then RAction.retract (backfilled.getD c.idx default)
  else RAction.scale "tensorflow-mnist-elastic" (-c.gpus)

/-- The GPUs an action recovers: the retracted pod's request, or the negated
scale delta of a scale-down. -/
def actionGpus : RAction → Int
  | .retract p => (p.gpuRequest : Int)
  | .scale _ d => -d

/-- Result of `Retrieve`: the returned `(bool, string)` pair plus the list of
actions applied on the success path. -/
structure RetrieveResult where
  success : Bool
  nominatedNode : String
  actions : List RAction
deriving DecidableEq, Repr

/-- `Retrieve` (Phases A and B of the retrieval engine). -/
def Retrieve (table : ThroughputTable) (podNow : Pod) (nodes : List NodeM)
    (jobs : List MPIJob) (idleGPUs requestGPUs : Int) (running : List String) :
    RetrieveResult :=
  let cands := retrieveCandidatesOf table podNow nodes jobs running
  if cands = [] then ⟨false, "", []⟩
  else
    let needGPUs := requestGPUs - idleGPUs
    match selectPrefix needGPUs (sortCandidates cands) with
    | none => ⟨false, "", []⟩
    | some sel => ⟨true, "", sel.map (candAction (backfilledPodsOf podNow nodes))⟩

/-- `idleGPUsinNodes`: total `nvidia.com/gpu` capacity minus the sum of the
pods' GPU requests. -/
def idleGPUsinNodes (nodes : List NodeM) : Int :=
  ((nodes.map (fun n => (n.capacityGpu : Int))).sum) -
    (((nodes.flatMap (·.pods)).map (fun p => (p.gpuRequest : Int))).sum)

/-- The status `Dynamic` returns upward. -/
inductive DStatus where
  | success
  | unschedulable (reason : String)
deriving DecidableEq, Repr

/-- Result of `Dynamic`: the nominated node of the `PostFilterResult`, the
status, and which MPIJob (if any) Phase C scaled out. -/
structure DynamicResult where
  nominatedNode : String
  status : DStatus
  scaledJob : Option String
deriving DecidableEq, Repr

/-- One iteration of the Phase C loop in `Dynamic`: for a running job, with
`usingGPUs := replicas + 1`, skip it when `usingGPUs > 5`; otherwise, when its
marginal throughput `T[usingGPUs] - T[usingGPUs-1]` beats the running maximum
and its annotations do not contain `scale-out`, it becomes the new best. -/
def phaseCStep (table : ThroughputTable) (jobs : List MPIJob) (acc : ℚ × String)
    (jobName : String) : ℚ × String :=
  let job := getMPIJob jobs jobName
  let usingGPUs := job.replicas + 1
  if usingGPUs > 5 then acc
  else
    let gain := table job.modelName usingGPUs - table job.modelName (usingGPUs - 1)
    if acc.1 < gain ∧ job.scaleOut = none then (gain, jobName) else acc

/-- `Dynamic`: try `Retrieve`; on success return `Success` (with the empty
nominated-node string `Retrieve` produced); else, when no GPU is idle, return
`Unschedulable "Nothing can do"`; else run the Phase C loop, scale out the
best job when its gain is positive, and return
`Unschedulable "Scale-Out MPIJob"`. -/
def Dynamic (table : ThroughputTable) (podNow : Pod) (nodes : List NodeM)
    (jobs : List MPIJob) (running : List String) : DynamicResult :=
  let requestGPUs := (podNow.gpuRequest : Int)
  let idleGPUs := idleGPUsinNodes nodes
  let r := Retrieve table podNow nodes jobs idleGPUs requestGPUs running
  if r.success then ⟨r.nominatedNode, DStatus.success, none⟩
  else if idleGPUs = 0 then ⟨"", DStatus.unschedulable "Nothing can do", none⟩
  else
    let best := running.foldl (phaseCStep table jobs) (0, "")
    ⟨"", DStatus.unschedulable "Scale-Out MPIJob",
      if 0 < best.1 then some best.2 else none⟩

/-! ## Dry-run engine -/

/-- A victim pod, restricted to what the tie-break scorer reads: its priority
(`corev1helpers.PodPriority`) and its start time (`none` when unset). -/
structure VPod where
  priority : Int
  startTime : Option Int
deriving DecidableEq, Inhabited, Repr

/-- `extenderv1.Victims`: the victim pods plus the PDB-violation count. -/
structure Victims where
  pods : List VPod
  numPDBViolations : Int
deriving DecidableEq, Inhabited, Repr

/-- A preemption candidate: target node name plus its victims. -/
structure CandidateM where
  name : String
  victims : Victims
deriving DecidableEq, Inhabited, Repr

/-- `candidateList.add` followed by the clamped `size`: a slot is reserved by
the incrementing index and the candidate stored only when the index is within
capacity, so the visible list grows only while shorter than `cap`. -/
def clAdd (cap : Nat) (l : List CandidateM) (c : CandidateM) : List CandidateM :=
  if l.length < cap then l ++ [c] else l

/-- State threaded through the dry-run tasks (sequential semantics of the
bounded worker pool): the two candidate lists plus the cancellation flag. -/
structure DryRunState where
  nonViolating : List CandidateM
  violating : List CandidateM
  cancelled : Bool
deriving DecidableEq, Repr

/-- `checkNode` of `DryRunPreemption` for one node.  A cancelled context skips
the task (the parallelizer checks the context before each piece).  On a
successful `SelectVictimsOnNode` with non-empty victims the candidate goes to
`nonViolatingCandidates` when `numPDBViolations == 0`, else to
`violatingCandidates`; then, when `nvcSize > 0 && nvcSize+vcSize >= numCandidates`,
the context is cancelled.  `selectVictims` is the plugin-provided
`SelectVictimsOnNode` reduced to its data: victims, PDB-violation count and
whether the status is success. -/
def checkNode (selectVictims : String → List VPod × Nat × Bool) (cap : Nat)
    (st : DryRunState) (nodeName : String) : DryRunState :=
  if st.cancelled then st
  else
    let r := selectVictims nodeName
    if r.2.2 && !(r.1 == []) then
      let c : CandidateM := ⟨nodeName, ⟨r.1, (r.2.1 : Int)⟩⟩
      let st1 :=
        if r.2.1 = 0 then { st with nonViolating := clAdd cap st.nonViolating c }
        else { st with violating := clAdd cap st.violating c }
      if 0 < st1.nonViolating.length ∧ cap ≤ st1.nonViolating.length + st1.violating.length
      then { st1 with cancelled := true } else st1
    else st

/-- `DryRunPreemption`: process the potential nodes, task `i` handling node
`(offset + i) % len(potentialNodes)`, and return `nonViolatingCandidates`
followed by `violatingCandidates`. -/
def DryRunPreemption (selectVictims : String → List VPod × Nat × Bool)
    (potentialNodes : List String) (offset : Nat) (numCandidates : Nat) :
    List CandidateM :=
  let st := (List.range potentialNodes.length).foldl
    (fun st i =>
      checkNode selectVictims numCandidates st
        (potentialNodes.getD ((offset + i) % potentialNodes.length) ""))
    ⟨[], [], false⟩
  st.nonViolating ++ st.violating

/-- Invariant of the sequential dry-run fold: both lists stay within capacity,
their combined size within `cap + 1`, and while the context is not cancelled
either no non-violating candidate exists yet or the combined size is still
below the cap (otherwise `checkNode` would have cancelled). -/
def DryInv (cap : Nat) (st : DryRunState) : Prop :=
  st.nonViolating.length ≤ cap ∧ st.violating.length ≤ cap ∧
    st.nonViolating.length + st.violating.length ≤ cap + 1 ∧
    (st.cancelled = false →
      st.nonViolating.length = 0 ∨ st.nonViolating.length + st.violating.length < cap)

/-! ## Tie-break scorer -/

/-- `math.MinInt64`, the initial running maximum of each scoring round. -/
def minInt64 : Int := -(2 ^ 63)

/-- `corev1helpers.PodPriority(victims.Pods[0])`.  The source indexes `Pods[0]`
directly (the candidate invariant keeps the list non-empty); `headD` supplies
the zero pod outside that domain. -/
def podPriorityAt (v : Victims) : Int := (v.pods.headD default).priority

/-- Modelled from the spec: `util.GetEarliestPodStartTime` is not part of the
sources; per §4.4 criterion 5 it returns the earliest start time among the
highest-priority victims on the node, `none` when unavailable. -/
def GetEarliestPodStartTime (v : Victims) : Option Int :=
  (((v.pods.filter (fun p => decide (∀ q ∈ v.pods, q.priority ≤ p.priority))).filterMap
    (·.startTime)).min?)

/-- The default layered score functions of `pickOneNodeForPreemption`, in
order: fewest PDB violations, lowest highest-victim priority, smallest
priority sum (each priority shifted by `MaxInt32 + 1`), fewest victims, and
latest earliest start time (`MinInt64` when missing). -/
def defaultScoreFuncs (m : String → Victims) : List (String → Int) :=
  [ fun node => -(m node).numPDBViolations,
    fun node => -(podPriorityAt (m node)),
    fun node => -(((m node).pods.map (fun p => p.priority + (2 ^ 31 : Int))).sum),
    fun node => -(((m node).pods.length : Int)),
    fun node =>
      match GetEarliestPodStartTime (m node) with
      | none => minInt64
      | some t => t ]

/-- The running maximum of one scoring round (initialised to `MinInt64`). -/
def maxScoreOf (f : String → Int) (l : List String) : Int :=
  l.foldl (fun m n => max m (f n)) minInt64

/-- The nodes retained by one scoring round: those achieving the maximum
score, in iteration order. -/
def selectMaxNodes (f : String → Int) (l : List String) : List String :=
  l.filter (fun n => f n == maxScoreOf f l)

/-- The score-function loop of `pickOneNodeForPreemption`: run each function
over the surviving candidates, returning as soon as exactly one node remains. -/
def pickLoop : List (String → Int) → List String → List String
  | [], l => l
  | f :: fs, l =>
    let sel := selectMaxNodes f l
    if sel.length = 1 then sel else pickLoop fs sel

/-- The surviving candidate list after the (effective) score functions:
`scoreFuncs` when non-empty, otherwise the default layered criteria. -/
def pickSurvivors (m : String → Victims) (scoreFuncs : List (String → Int))
    (order : List String) : List String :=
  pickLoop (if scoreFuncs.isEmpty then defaultScoreFuncs m else scoreFuncs) order

/-- `pickOneNodeForPreemption`.  `order` is the iteration order of the
`nodesToVictims` map (Go map iteration; an arbitrary permutation of the keys),
`m` the victims of each node.  Returns `""` for an empty map, the unique
survivor when a scoring round eliminates all ties, and otherwise the first
surviving candidate in iteration order. -/
def pickOneNodeForPreemption (m : String → Victims) (scoreFuncs : List (String → Int))
    (order : List String) : String :=
  if order.isEmpty then "" else (pickSurvivors m scoreFuncs order).headD ""

/-! ## Queue ordering (`queuesort/priority_sort.go`, first file) -/

/-- A queued pod, restricted to what `PrioritySort.Less` reads: name, priority
and the parsed `retract-check-var` annotation. -/
structure QPod where
  name : String
  priority : Int
  retractCheckVar : Option Nat
deriving DecidableEq, Inhabited, Repr

/-- `framework.QueuedPodInfo`: the pod plus its queue-insertion timestamp. -/
structure QueuedPodInfo where
  pod : QPod
  timestamp : Nat
deriving DecidableEq, Inhabited, Repr

/-- `strings.Split(s, "-")` (always non-empty; `[""]` for the empty string). -/
def splitDashAux : List Char → List Char → List String
  | [], acc => [String.mk acc.reverse]
  | c :: cs, acc =>
    if c = '-' then String.mk acc.reverse :: splitDashAux cs []
    else splitDashAux cs (c :: acc)

/-- `strings.Split` on the `"-"` separator. -/
def splitDash (s : String) : List String := splitDashAux s.data []

/-- `PrioritySort.checkMPIJob`: split the pod name on `"-"`; when the last
component is `"launcher"` or the second-to-last is `"worker"`, return the
MPIJob name and `true`.  With a single component that is not `"launcher"`, the
source evaluates `podNameSlice[len(podNameSlice)-2]`, an out-of-range index —
a runtime panic, modelled as `none`. -/
def checkMPIJob (podName : String) : Option (String × Bool) :=
  let s := splitDash podName
  if s.getLastD "" = "launcher" then
    some (String.intercalate "-" (s.take (s.length - 1)), true)
  else if s.length < 2 then none
  else if s.getD (s.length - 2) "" = "worker" then
    some (String.intercalate "-" (s.take (s.length - 2)), true)
  else some ("", false)

/-- The priority-then-timestamp comparison `Less` falls through to, branching
on which pods carry the `retract-check-var` annotation: an annotated pod is
compared through its parsed annotation, an unannotated one through its
queue-insertion timestamp. -/
def lessFallthrough (pInfo1 pInfo2 : QueuedPodInfo) : Bool :=
  let p1 := pInfo1.pod.priority
  let p2 := pInfo2.pod.priority
  match pInfo1.pod.retractCheckVar, pInfo2.pod.retractCheckVar with
  | some t1, some t2 => decide (p1 > p2 ∨ (p1 = p2 ∧ t1 < t2))
  | some t1, none => decide (p1 > p2 ∨ (p1 = p2 ∧ t1 < pInfo2.timestamp))
  | none, some t2 => decide (p1 > p2 ∨ (p1 = p2 ∧ pInfo1.timestamp < t2))
  | none, none => decide (p1 > p2 ∨ (p1 = p2 ∧ pInfo1.timestamp < pInfo2.timestamp))

/-- `PrioritySort.Less`.  `inNode` is the cluster query `isMPIJobInNode`
(whether the job already has a pod bound to some node), fixed for the duration
of one comparison.  When exactly one pod parses as an MPIJob pod and its job
is resident, the bias of step 1 decides; otherwise the priority/timestamp
comparison applies.  `none` models the `checkMPIJob` panic. -/
def Less (inNode : String → Bool) (pInfo1 pInfo2 : QueuedPodInfo) : Option Bool :=
  match checkMPIJob pInfo1.pod.name, checkMPIJob pInfo2.pod.name with
  | some (j1, m1), some (j2, m2) =>
    some (if m1 ≠ m2 then
            if m1 && inNode j1 then true
            else if m2 && inNode j2 then false
            else lessFallthrough pInfo1 pInfo2
          else lessFallthrough pInfo1 pInfo2)
  | _, _ => none

/-- The effective timestamp `lessFallthrough` compares: the parsed
`retract-check-var` annotation when present, else the queue-insertion
timestamp. -/
def effTimestamp (x : QueuedPodInfo) : Nat := x.pod.retractCheckVar.getD x.timestamp

/-- Whether the elastic-residency bias can fire for this pod: it parses as an
MPIJob pod and its job is resident on some node. -/
def biasApplies (inNode : String → Bool) (x : QueuedPodInfo) : Bool :=
  match checkMPIJob x.pod.name with
  | some (j, m) => m && inNode j
  | none => false

/-! ## Elastic job controller adapter (`MPIJobScaling`) -/

/-- Lookup in an annotation map; a missing key reads Go's zero string. -/
def lookupA (l : List (String × String)) (k : String) : String :=
  ((l.find? (fun e => e.1 == k)).map (·.2)).getD ""

/-- Insert-or-replace in an annotation map. -/
def insertA : List (String × String) → String → String → List (String × String)
  | [], k, v => [(k, v)]
  | (k', v') :: rest, k, v =>
    if k' = k then (k, v) :: rest else (k', v') :: insertA rest k v

/-- The MPIJob object as `MPIJobScaling` manipulates it:
`spec.mpiReplicaSpecs.Worker.replicas` plus the full annotation map
(`none` when `metadata.annotations` is absent). -/
structure MPIJobObj where
  replicas : Int
  annotations : Option (List (String × String))
deriving DecidableEq, Repr

/-- `MPIJobScaling`: add `scaleNum` to the worker replicas; when
`scaleNum > 0`, create the annotation map with `scale-out = Itoa(scaleNum)`
if it was absent, and otherwise *string-append* `Itoa(scaleNum)` to the
current `scale-out` value (`annotations["scale-out"] += strconv.Itoa(...)`). -/
def MPIJobScaling (job : MPIJobObj) (scaleNum : Int) : MPIJobObj :=
  let job' : MPIJobObj := { job with replicas := job.replicas + scaleNum }
  if scaleNum > 0 then
    match job'.annotations with
    | none => { job' with annotations := some [("scale-out", toString scaleNum)] }
    | some anns =>
      { job' with
        annotations := some (insertA anns "scale-out" (lookupA anns "scale-out" ++ toString scaleNum)) }
  else job'

/-! ## Helper lemmas on the Phase A/B candidate pipeline -/

theorem getD_mem_of_lt {α : Type} [Inhabited α] :
    ∀ (l : List α) (n : Nat), n < l.length → l.getD n default ∈ l
  | _ :: _, 0, _ => List.mem_cons_self _ _
  | _ :: t, n + 1, h =>
    List.mem_cons_of_mem _ (getD_mem_of_lt t n (by simpa using h))

theorem mem_buildRetractCands {table : ThroughputTable} {i : Nat} {l : List Pod} {c : RCand}
    (h : c ∈ buildRetractCands table i l) :
    c.kind = 0 ∧ i ≤ c.idx ∧ c.idx - i < l.length ∧
      c.gpus = ((l.getD (c.idx - i) default).gpuRequest : Int) := by
  induction l generalizing i with
  | nil => simp [buildRetractCands] at h
  | cons q rest ih =>
    rw [buildRetractCands, List.mem_cons] at h
    rcases h with rfl | h
    · exact ⟨rfl, Nat.le_refl _, by simp, by simp⟩
    · obtain ⟨hk, hle, hlt, hg⟩ := ih h
      refine ⟨hk, by omega, by simp only [List.length_cons]; omega, ?_⟩
      have hidx : c.idx - i = (c.idx - (i + 1)) + 1 := by omega
      rw [hidx, List.getD_cons_succ]
      exact hg

theorem mem_buildScaleCands {table : ThroughputTable} {i : Nat} {l : List MPIJob} {c : RCand}
    (h : c ∈ buildScaleCands table i l) :
    c.kind = 1 ∧ ∃ j ∈ l, c.gpus = scaleDownGpus j := by
  induction l generalizing i with
  | nil => simp [buildScaleCands] at h
  | cons j rest ih =>
    rw [buildScaleCands, List.mem_cons] at h
    rcases h with rfl | h
    · exact ⟨rfl, j, List.mem_cons_self _ _, rfl⟩
    · obtain ⟨hk, j', hj', hg⟩ := ih h
      exact ⟨hk, j', List.mem_cons_of_mem _ hj', hg⟩

theorem mem_scaleOutJobsOf {jobs : List MPIJob} {running : List String} {j : MPIJob}
    (h : j ∈ scaleOutJobsOf jobs running) : j ∈ jobs := by
  rw [scaleOutJobsOf, List.mem_filter] at h
  obtain ⟨hmem, hsome⟩ := h
  obtain ⟨n, _, hget⟩ := List.mem_map.mp hmem
  rw [getMPIJob] at hget
  cases hfind : jobs.find? (fun j => j.name == n) with
  | some j' =>
    rw [hfind] at hget
    simp only [Option.getD_some] at hget
    exact hget ▸ List.mem_of_find?_eq_some hfind
  | none =>
    rw [hfind] at hget
    simp only [Option.getD_none] at hget
    rw [← hget] at hsome
    simp [defaultMPIJob] at hsome

theorem mem_retrieveCandidates {table : ThroughputTable} {podNow : Pod} {nodes : List NodeM}
    {jobs : List MPIJob} {running : List String} {c : RCand}
    (h : c ∈ retrieveCandidatesOf table podNow nodes jobs running) :
    (c.kind = 0 ∧ c.idx < (backfilledPodsOf podNow nodes).length ∧
      c.gpus = (((backfilledPodsOf podNow nodes).getD c.idx default).gpuRequest : Int)) ∨
    (c.kind = 1 ∧ ∃ j ∈ scaleOutJobsOf jobs running, c.gpus = scaleDownGpus j) := by
  rcases List.mem_append.mp h with h | h
  · obtain ⟨hk, _, hlt, hg⟩ := mem_buildRetractCands h
    exact Or.inl ⟨hk, by simpa using hlt, by simpa using hg⟩
  · exact Or.inr (mem_buildScaleCands h)

theorem mem_sortCandidates {l : List RCand} {c : RCand} :
    c ∈ sortCandidates l ↔ c ∈ l := by
  simp [sortCandidates, List.mem_insertionSort]

theorem selectPrefix_mem {need : Int} {l sel : List RCand}
    (h : selectPrefix need l = some sel) : ∀ c ∈ sel, c ∈ l := by
  induction l generalizing need sel with
  | nil => simp [selectPrefix] at h
  | cons a t ih =>
    intro c hc
    by_cases hle : need - a.gpus ≤ 0
    · rw [selectPrefix, if_pos hle, Option.some_inj] at h
      subst h
      simp only [List.mem_singleton] at hc
      exact hc ▸ List.mem_cons_self _ _
    · rw [selectPrefix, if_neg hle, Option.map_eq_some'] at h
      obtain ⟨s', hs', rfl⟩ := h
      rcases List.mem_cons.mp hc with rfl | hc'
      · exact List.mem_cons_self _ _
      · exact List.mem_cons_of_mem _ (ih hs' c hc')

theorem selectPrefix_sum {need : Int} {l sel : List RCand}
    (h : selectPrefix need l = some sel) : need ≤ (sel.map (fun c => c.gpus)).sum := by
  induction l generalizing need sel with
  | nil => simp [selectPrefix] at h
  | cons a t ih =>
    by_cases hle : need - a.gpus ≤ 0
    · rw [selectPrefix, if_pos hle, Option.some_inj] at h
      subst h
      simp only [List.map_cons, List.map_nil, List.sum_cons, List.sum_nil, add_zero]
      omega
    · rw [selectPrefix, if_neg hle, Option.map_eq_some'] at h
      obtain ⟨s', hs', rfl⟩ := h
      have := ih hs'
      simp only [List.map_cons, List.sum_cons]
      omega

/-! ## Claim C5: the two stable sorts order by GPUs, ties by cost -/

theorem orderedInsert_pairwise {q : RCand → RCand → Prop} {s : List RCand} {a : RCand}
    (hq : s.Pairwise q) (hr : s.Pairwise leGpus)
    (h1 : ∀ b ∈ s, leGpus a b → q a b) (h2 : ∀ b ∈ s, ¬leGpus a b → q b a) :
    (List.orderedInsert leGpus a s).Pairwise q := by
  induction s with
  | nil => simp
  | cons b t ih =>
    rw [List.orderedInsert]
    obtain ⟨hqb, hqt⟩ := List.pairwise_cons.mp hq
    obtain ⟨hrb, hrt⟩ := List.pairwise_cons.mp hr
    by_cases hab : leGpus a b
    · rw [if_pos hab]
      refine List.pairwise_cons.mpr ⟨?_, hq⟩
      intro x hx
      rcases List.mem_cons.mp hx with rfl | hx'
      · exact h1 x (List.mem_cons_self _ _) hab
      · exact h1 x (List.mem_cons_of_mem _ hx')
          (Trans.trans hab (hrb x hx'))
    · rw [if_neg hab]
      refine List.pairwise_cons.mpr ⟨?_, ?_⟩
      · intro x hx
        rcases (List.mem_orderedInsert leGpus).mp hx with rfl | hx'
        · exact h2 b (List.mem_cons_self _ _) hab
        · exact hqb x hx'
      · exact ih hqt hrt
          (fun x hx hax => h1 x (List.mem_cons_of_mem _ hx) hax)
          (fun x hx hax => h2 x (List.mem_cons_of_mem _ hx) hax)

theorem insertionSort_pairwise_of_cost_sorted {l : List RCand} (hl : l.Pairwise leCost) :
    (List.insertionSort leGpus l).Pairwise leGpusCost := by
  induction l with
  | nil => exact List.Pairwise.nil
  | cons a t ih =>
    rw [List.insertionSort]
    obtain ⟨ha, ht⟩ := List.pairwise_cons.mp hl
    refine orderedInsert_pairwise (ih ht) (List.sorted_insertionSort leGpus t) ?_ ?_
    · intro b hb hab
      have hb' : b ∈ t := (List.mem_insertionSort leGpus).mp hb
      have hcost : a.cost ≤ b.cost := ha b hb'
      have hgpus : a.gpus ≤ b.gpus := hab
      rcases lt_or_eq_of_le hgpus with h | h
      · exact Or.inl h
      · exact Or.inr ⟨h, hcost⟩
    · intro b hb hab
      have : b.gpus < a.gpus := by
        simp only [leGpus, not_le] at hab
        exact hab
      exact Or.inl this

theorem sortCandidates_pairwise (l : List RCand) :
    (sortCandidates l).Pairwise leGpusCost := by
  rw [sortCandidates]
  exact insertionSort_pairwise_of_cost_sorted (List.sorted_insertionSort leCost l)

/-- **C5**: after the two stable sorts of Phase B (stably by cost, then stably
by GPUs), the reclaim candidates — whose `cost` fields carry
`int(throughputTable[model(Q)][gpuRequest(Q)])` for retract candidates and
`int(T[replicas] - T[replicas - scaleOut])` for scale-down candidates, via
`retrieveCandidatesOf` — are ordered primarily by smallest GPU contribution
with ties broken by smallest cost, and form a permutation of the gathered
candidates. -/
theorem retrieve_sorted_primarily_gpus_ties_cost (table : ThroughputTable) (podNow : Pod)
    (nodes : List NodeM) (jobs : List MPIJob) (running : List String) :
    (sortCandidates (retrieveCandidatesOf table podNow nodes jobs running)).Pairwise
        leGpusCost ∧
      (sortCandidates (retrieveCandidatesOf table podNow nodes jobs running)).Perm
        (retrieveCandidatesOf table podNow nodes jobs running) :=
  ⟨sortCandidates_pairwise _,
    (List.perm_insertionSort leGpus _).trans (List.perm_insertionSort leCost _)⟩

/-! ## Claim C1: Phase B scale-down targets a hard-coded job name -/

/-- **C1** (code evaluated at the failing input): with a single scale-down
candidate built from the elastic job `"job1"` (annotation `scale-out = "1"`,
2 worker replicas) and a deficit of 1 GPU, Phase B succeeds and the applied
action scales the hard-coded job `"tensorflow-mnist-elastic"`, not the job
`"job1"` the selected candidate was built from. -/
theorem retrieve_scales_hardcoded_job :
    (Retrieve (fun _ _ => (0 : ℚ)) ⟨"p", none, none, "", 0, 1⟩ []
        [⟨"job1", "m", some "1", 2⟩] 0 1 ["job1"]).success = true ∧
    (Retrieve (fun _ _ => (0 : ℚ)) ⟨"p", none, none, "", 0, 1⟩ []
        [⟨"job1", "m", some "1", 2⟩] 0 1 ["job1"]).actions =
      [RAction.scale "tensorflow-mnist-elastic" (-1)] ∧
    (scaleOutJobsOf [⟨"job1", "m", some "1", 2⟩] ["job1"]).map (·.name) = ["job1"] ∧
    "tensorflow-mnist-elastic" ≠ "job1" := by decide

/-! ## Claim C9: the scale-out annotation is string-appended, not added -/

/-- **C9** (code evaluated at the failing input): two successive `+1` scale-ups
of a job without a prior `scale-out` annotation leave the annotation at the
concatenation `"11"`, not the decimal total `"2"` (and the worker replicas at
`2 + 1 + 1 = 4`). -/
theorem scaleOut_annotation_string_appended :
    lookupA (((MPIJobScaling (MPIJobScaling ⟨2, none⟩ 1) 1).annotations).getD [])
        "scale-out" = "11" ∧
    "11" ≠ "2" ∧
    (MPIJobScaling (MPIJobScaling ⟨2, none⟩ 1) 1).replicas = 4 := by decide

/-! ## Claim C10: `Less` panics on a pod name without a `'-'` separator -/

/-- **C10** (code evaluated at the failing input): comparing a pod whose name
`"x"` contains no `'-'`, `checkMPIJob` indexes `podNameSlice[len-2]` on a
one-element slice — a runtime panic (`none`), so `Less` returns no boolean. -/
theorem less_panics_on_dashless_name :
    Less (fun _ => true) ⟨⟨"x", 0, none⟩, 0⟩ ⟨⟨"a-launcher", 0, none⟩, 0⟩ = none ∧
    checkMPIJob "x" = none := by decide

/-! ## Claim C4: retrieval safety of Phase B -/

/-- **C4**: every pod retracted by Phase B of `Retrieve` has an effective
timestamp (`getPodTimestamp`: the parsed `retract-check-var` annotation when
present, else the creation timestamp) strictly later than the preemptor's;
equivalently, no pod with effective timestamp at most the preemptor's is ever
retracted. -/
theorem retrieve_retract_safety (table : ThroughputTable) (podNow : Pod) (nodes : List NodeM)
    (jobs : List MPIJob) (idleGPUs requestGPUs : Int) (running : List String) (p : Pod)
    (h : RAction.retract p ∈
      (Retrieve table podNow nodes jobs idleGPUs requestGPUs running).actions) :
    getPodTimestamp podNow < getPodTimestamp p := by
  simp only [Retrieve] at h
  by_cases hnil : retrieveCandidatesOf table podNow nodes jobs running = []
  · rw [if_pos hnil] at h
    simp at h
  · rw [if_neg hnil] at h
    rcases hsel : selectPrefix (requestGPUs - idleGPUs)
      (sortCandidates (retrieveCandidatesOf table podNow nodes jobs running)) with _ | sel
    · rw [hsel] at h
      simp at h
    · rw [hsel] at h
      simp only [List.mem_map] at h
      obtain ⟨c, hc, hact⟩ := h
      have hcc : c ∈ retrieveCandidatesOf table podNow nodes jobs running :=
        mem_sortCandidates.mp (selectPrefix_mem hsel c hc)
      by_cases hk : c.kind = 0
      · rw [candAction, if_pos hk] at hact
        rcases mem_retrieveCandidates hcc with ⟨_, hlt, _⟩ | ⟨hk1, _⟩
        · have hmem : (backfilledPodsOf podNow nodes).getD c.idx default ∈
              backfilledPodsOf podNow nodes := getD_mem_of_lt _ _ hlt
          have hp : p ∈ backfilledPodsOf podNow nodes := by
            have : RAction.retract ((backfilledPodsOf podNow nodes).getD c.idx default) =
                RAction.retract p := hact
            cases this
            exact hmem
          have := (List.mem_filter.mp hp).2
          simp only [Bool.and_eq_true, decide_eq_true_eq] at this
          exact this.2
        · omega
      · rw [candAction, if_neg hk] at hact
        cases hact

/-- Witness for C4: the preemptor (timestamp 0) retracting the backfilled pod
`"q"` (timestamp 5, 2 GPUs) via `Retrieve` at deficit 2. -/
theorem retrieve_retract_safety_witness :
    getPodTimestamp ⟨"p", none, none, "", 0, 1⟩ <
      getPodTimestamp ⟨"q", some "backfilled", none, "", 5, 2⟩ :=
  retrieve_retract_safety (fun _ _ => (0 : ℚ)) ⟨"p", none, none, "", 0, 1⟩
    [⟨"n", 0, [⟨"q", some "backfilled", none, "", 5, 2⟩]⟩] [] 0 2 []
    ⟨"q", some "backfilled", none, "", 5, 2⟩ (by decide)

/-! ## Claim C6: deficit satisfaction of Phase B -/

/-- **C6**: whenever Phase B of `Retrieve` returns success, the GPUs recovered
by the applied actions sum to at least `max 0 (requestGPUs - idleGPUs)`.  The
hypothesis `hann` is the data-model typing of the `scale-out` annotation (a
decimal count of added workers, hence non-negative when parsed). -/
theorem retrieve_deficit_satisfaction (table : ThroughputTable) (podNow : Pod)
    (nodes : List NodeM) (jobs : List MPIJob) (idleGPUs requestGPUs : Int)
    (running : List String)
    (hann : ∀ j ∈ jobs, 0 ≤ atoi (j.scaleOut.getD ""))
    (hs : (Retrieve table podNow nodes jobs idleGPUs requestGPUs running).success = true) :
    max 0 (requestGPUs - idleGPUs) ≤
      (((Retrieve table podNow nodes jobs idleGPUs requestGPUs running).actions).map
        actionGpus).sum := by
  simp only [Retrieve] at hs ⊢
  by_cases hnil : retrieveCandidatesOf table podNow nodes jobs running = []
  · rw [if_pos hnil] at hs
    exact Bool.noConfusion hs
  · rw [if_neg hnil] at hs ⊢
    rcases hsel : selectPrefix (requestGPUs - idleGPUs)
      (sortCandidates (retrieveCandidatesOf table podNow nodes jobs running)) with _ | sel
    · rw [hsel] at hs
      exact Bool.noConfusion hs
    · have hmemc : ∀ c ∈ sel, c ∈ retrieveCandidatesOf table podNow nodes jobs running :=
        fun c hc => mem_sortCandidates.mp (selectPrefix_mem hsel c hc)
      have hmap : (sel.map (candAction (backfilledPodsOf podNow nodes))).map actionGpus =
          sel.map (fun c => c.gpus) := by
        rw [List.map_map]
        refine List.map_congr_left (fun c hc => ?_)
        rcases mem_retrieveCandidates (hmemc c hc) with ⟨hk, _, hg⟩ | ⟨hk, _⟩
        · simp only [Function.comp_apply, candAction, if_pos hk, actionGpus]
          exact hg.symm
        · have hk0 : ¬c.kind = 0 := by omega
          simp only [Function.comp_apply, candAction, if_neg hk0, actionGpus, neg_neg]
      have hnonneg : 0 ≤ (sel.map (fun c => c.gpus)).sum := by
        refine List.sum_nonneg (fun x hx => ?_)
        obtain ⟨c, hc, rfl⟩ := List.mem_map.mp hx
        rcases mem_retrieveCandidates (hmemc c hc) with ⟨_, _, hg⟩ | ⟨_, j, hj, hg⟩
        · rw [hg]
          exact Int.natCast_nonneg _
        · rw [hg]
          exact hann j (mem_scaleOutJobsOf hj)
      have hneed : requestGPUs - idleGPUs ≤ (sel.map (fun c => c.gpus)).sum :=
        selectPrefix_sum hsel
      refine le_trans (max_le hnonneg hneed) (le_of_eq ?_)
      exact congrArg List.sum hmap.symm

/-- Witness for C6: the concrete success of the C4 witness input recovers
2 GPUs for a deficit of `max 0 (2 - 0) = 2`. -/
theorem retrieve_deficit_satisfaction_witness :
    max 0 ((2 : Int) - 0) ≤
      (((Retrieve (fun _ _ => (0 : ℚ)) ⟨"p", none, none, "", 0, 1⟩
        [⟨"n", 0, [⟨"q", some "backfilled", none, "", 5, 2⟩]⟩] [] 0 2 []).actions).map
        actionGpus).sum :=
  retrieve_deficit_satisfaction (fun _ _ => (0 : ℚ)) ⟨"p", none, none, "", 0, 1⟩
    [⟨"n", 0, [⟨"q", some "backfilled", none, "", 5, 2⟩]⟩] [] 0 2 []
    (by decide) (by decide)

/-! ## Claim C2: the candidate cap can be exceeded -/

/-- **C2 counterexample**: with candidate cap `numCandidates = 1` and two
nodes — the first yielding a PDB-violating candidate, the second a
non-violating one — `DryRunPreemption` returns both candidates: the cap is
exceeded (cancellation only fires once a non-violating candidate exists, and
the violating list already holds a candidate by then). -/
theorem dryRunPreemption_exceeds_cap :
    ¬((DryRunPreemption
        (fun n => if n = "n2" then ([⟨0, none⟩], 0, true) else ([⟨0, none⟩], 1, true))
        ["n1", "n2"] 0 1).length ≤ 1) := by decide

theorem clAdd_length (cap : Nat) (l : List CandidateM) (c : CandidateM) :
    (clAdd cap l c).length = if l.length < cap then l.length + 1 else l.length := by
  rw [clAdd]
  split <;> simp

theorem checkNode_inv (sel : String → List VPod × Nat × Bool) (cap : Nat)
    (st : DryRunState) (n : String) (h : DryInv cap st) :
    DryInv cap (checkNode sel cap st n) := by
  obtain ⟨h1, h2, h3, h4⟩ := h
  simp only [checkNode]
  split_ifs with hcan hsucc hpdb hstop hstop
  · exact ⟨h1, h2, h3, h4⟩
  · have hfree := h4 (by simpa using hcan)
    simp only [DryInv, clAdd_length]
    refine ⟨?_, h2, ?_, fun hf => Bool.noConfusion hf⟩
    · split_ifs <;> omega
    · split_ifs <;> omega
  · have hfree := h4 (by simpa using hcan)
    simp only [DryInv, clAdd_length] at hstop ⊢
    refine ⟨?_, h2, ?_, fun _ => ?_⟩
    · split_ifs <;> omega
    · split_ifs <;> omega
    · split_ifs at hstop ⊢ <;> omega
  · have hfree := h4 (by simpa using hcan)
    simp only [DryInv, clAdd_length]
    refine ⟨h1, ?_, ?_, fun hf => Bool.noConfusion hf⟩
    · split_ifs <;> omega
    · split_ifs <;> omega
  · have hfree := h4 (by simpa using hcan)
    simp only [DryInv, clAdd_length] at hstop ⊢
    refine ⟨h1, ?_, ?_, fun _ => ?_⟩
    · split_ifs <;> omega
    · split_ifs <;> omega
    · split_ifs at hstop ⊢ <;> omega
  · exact ⟨h1, h2, h3, h4⟩

theorem foldl_checkNode_inv {α : Type} (sel : String → List VPod × Nat × Bool) (cap : Nat)
    (f : α → String) (l : List α) (st : DryRunState) (h : DryInv cap st) :
    DryInv cap (l.foldl (fun st x => checkNode sel cap st (f x)) st) := by
  induction l generalizing st with
  | nil => exact h
  | cons a t ih => exact ih _ (checkNode_inv sel cap st (f a) h)

/-- **C2 amended**: in the sequential semantics of the dry-run, the candidate
list returned by `DryRunPreemption` has length at most `numCandidates + 1`:
the cap can be exceeded by exactly one when the violating list is already full
at the moment the first non-violating candidate arrives. -/
theorem dryRunPreemption_le_cap_succ (sel : String → List VPod × Nat × Bool)
    (nodes : List String) (offset cap : Nat) :
    (DryRunPreemption sel nodes offset cap).length ≤ cap + 1 := by
  have hinv := foldl_checkNode_inv sel cap
    (fun i => nodes.getD ((offset + i) % nodes.length) "") (List.range nodes.length)
    ⟨[], [], false⟩ ⟨Nat.zero_le _, Nat.zero_le _, by simp, fun _ => Or.inl rfl⟩
  simp only [DryRunPreemption, List.length_append]
  exact hinv.2.2.1

/-! ## Claim C3: the "Nothing can do" reason requires zero idle GPUs -/

/-- **C3 counterexample**: preemptor requesting 1 GPU, one empty node with
2 idle GPUs, no jobs at all.  Phase B fails and Phase C finds no eligible
scale-out target (nothing is scaled), yet `Dynamic` returns
`Unschedulable "Scale-Out MPIJob"`, not `Unschedulable "Nothing can do"`. -/
theorem dynamic_without_eligible_scaleout_says_scale_out :
    (Dynamic (fun _ _ => (0 : ℚ)) ⟨"p", none, none, "", 0, 1⟩ [⟨"n", 2, []⟩] [] []).status =
      DStatus.unschedulable "Scale-Out MPIJob" ∧
    (Dynamic (fun _ _ => (0 : ℚ)) ⟨"p", none, none, "", 0, 1⟩ [⟨"n", 2, []⟩] [] []).scaledJob =
      none ∧
    (Retrieve (fun _ _ => (0 : ℚ)) ⟨"p", none, none, "", 0, 1⟩ [⟨"n", 2, []⟩] []
        (idleGPUsinNodes [⟨"n", 2, []⟩]) 1 []).success = false ∧
    idleGPUsinNodes [⟨"n", 2, []⟩] = 2 ∧
    DStatus.unschedulable "Scale-Out MPIJob" ≠ DStatus.unschedulable "Nothing can do" := by
  decide

/-- **C3 amended**: when Phase B fails, `Dynamic` returns
`Unschedulable "Nothing can do"` exactly when no GPU is idle; with idle GPUs
available it returns `Unschedulable "Scale-Out MPIJob"` even when Phase C
finds no eligible scale-out target. -/
theorem dynamic_reason_on_retrieve_failure (table : ThroughputTable) (podNow : Pod)
    (nodes : List NodeM) (jobs : List MPIJob) (running : List String)
    (hfail : (Retrieve table podNow nodes jobs (idleGPUsinNodes nodes)
      (podNow.gpuRequest : Int) running).success = false) :
    (idleGPUsinNodes nodes = 0 →
      (Dynamic table podNow nodes jobs running).status =
        DStatus.unschedulable "Nothing can do") ∧
    (idleGPUsinNodes nodes ≠ 0 →
      (Dynamic table podNow nodes jobs running).status =
        DStatus.unschedulable "Scale-Out MPIJob") := by
  constructor
  · intro hidle
    rw [hidle] at hfail
    simp [Dynamic, hfail, hidle]
  · intro hidle
    simp [Dynamic, hfail, hidle]

/-- Witness for the amended C3: an empty node of capacity 0 (no idle GPUs), no
jobs; Phase B fails and `Dynamic` reports `"Nothing can do"`. -/
theorem dynamic_reason_on_retrieve_failure_witness :
    (Dynamic (fun _ _ => (0 : ℚ)) ⟨"p", none, none, "", 0, 1⟩ [⟨"n", 0, []⟩] [] []).status =
      DStatus.unschedulable "Nothing can do" :=
  (dynamic_reason_on_retrieve_failure (fun _ _ => (0 : ℚ)) ⟨"p", none, none, "", 0, 1⟩
    [⟨"n", 0, []⟩] [] [] (by decide)).1 (by decide)

/-! ## Claim C7: the scorer's fallback depends on map iteration order -/

theorem maxScoreOf_perm (f : String → Int) {l₁ l₂ : List String} (p : l₁.Perm l₂) :
    maxScoreOf f l₁ = maxScoreOf f l₂ :=
  p.foldl_eq' (fun x _ y _ z => by
    show max (max z (f x)) (f y) = max (max z (f y)) (f x)
    rw [max_assoc, max_comm (f x), ← max_assoc]) minInt64

theorem selectMaxNodes_perm (f : String → Int) {l₁ l₂ : List String} (p : l₁.Perm l₂) :
    (selectMaxNodes f l₁).Perm (selectMaxNodes f l₂) := by
  rw [selectMaxNodes, selectMaxNodes, maxScoreOf_perm f p]
  exact p.filter _

theorem pickLoop_perm (fs : List (String → Int)) {l₁ l₂ : List String} (p : l₁.Perm l₂) :
    (pickLoop fs l₁).Perm (pickLoop fs l₂) := by
  induction fs generalizing l₁ l₂ with
  | nil => exact p
  | cons f fs ih =>
    have hsel := selectMaxNodes_perm f p
    have hlen := hsel.length_eq
    simp only [pickLoop]
    by_cases h1 : (selectMaxNodes f l₁).length = 1
    · rw [if_pos h1, if_pos (hlen ▸ h1)]
      exact hsel
    · rw [if_neg h1, if_neg (fun hc => h1 (hlen ▸ hc))]
      exact ih hsel

theorem pickLoop_nil (fs : List (String → Int)) : pickLoop fs [] = [] := by
  induction fs with
  | nil => rfl
  | cons f fs ih =>
    simp only [pickLoop, selectMaxNodes, List.filter_nil, List.length_nil]
    exact ih

/-- **C7 amended**: for a fixed victims map and score functions,
`pickOneNodeForPreemption` is independent of the map iteration order whenever
the layered criteria eliminate the ties (the surviving candidate set is a
singleton); when ties survive to the final fallback, the returned node follows
the iteration order and can differ across runs (see the counterexample). -/
theorem pickOneNode_deterministic_of_unique_survivor (m : String → Victims)
    (scoreFuncs : List (String → Int)) (l₁ l₂ : List String) (hperm : l₁.Perm l₂)
    (h1 : (pickSurvivors m scoreFuncs l₁).length = 1) :
    pickOneNodeForPreemption m scoreFuncs l₁ = pickOneNodeForPreemption m scoreFuncs l₂ := by
  have hs : (pickSurvivors m scoreFuncs l₁).Perm (pickSurvivors m scoreFuncs l₂) :=
    pickLoop_perm _ hperm
  obtain ⟨a, ha⟩ := List.length_eq_one.mp h1
  have hb : pickSurvivors m scoreFuncs l₂ = [a] := List.perm_singleton.mp (ha ▸ hs).symm
  have hne₁ : l₁ ≠ [] := by
    intro hcon
    rw [hcon] at h1
    rw [pickSurvivors, pickLoop_nil] at h1
    cases h1
  have hne₂ : l₂ ≠ [] := by
    intro hcon
    exact hne₁ (List.Perm.eq_nil (hcon ▸ hperm))
  rw [pickOneNodeForPreemption, pickOneNodeForPreemption,
    if_neg (by simp [List.isEmpty_iff, hne₁]), if_neg (by simp [List.isEmpty_iff, hne₂]),
    ha, hb]

/-- Witness for the amended C7: two nodes with distinct PDB-violation counts;
the first criterion already picks `"a"` for either iteration order. -/
theorem pickOneNode_deterministic_witness :
    pickOneNodeForPreemption (fun n => ⟨[⟨0, some 0⟩], if n = "a" then 0 else 1⟩) []
        ["a", "b"] =
      pickOneNodeForPreemption (fun n => ⟨[⟨0, some 0⟩], if n = "a" then 0 else 1⟩) []
        ["b", "a"] :=
  pickOneNode_deterministic_of_unique_survivor
    (fun n => ⟨[⟨0, some 0⟩], if n = "a" then 0 else 1⟩) [] ["a", "b"] ["b", "a"]
    (by decide) (by decide)

/-- **C7 counterexample**: two nodes with identical victims survive every
default criterion; the fallback returns the first node in iteration order, so
two runs whose map iteration orders differ (a permutation of the same key
set) return different nodes. -/
theorem pickOneNode_depends_on_iteration_order :
    pickOneNodeForPreemption (fun _ => ⟨[⟨0, some 0⟩], 0⟩) [] ["a", "b"] = "a" ∧
    pickOneNodeForPreemption (fun _ => ⟨[⟨0, some 0⟩], 0⟩) [] ["b", "a"] = "b" ∧
    List.Perm ["a", "b"] ["b", "a"] ∧ "a" ≠ "b" := by decide

/-! ## Claim C8: incomparability under `Less` is not transitive -/

theorem lessFallthrough_iff {a b : QueuedPodInfo} :
    lessFallthrough a b = true ↔
      (b.pod.priority < a.pod.priority ∨
        (a.pod.priority = b.pod.priority ∧ effTimestamp a < effTimestamp b)) := by
  rw [lessFallthrough]
  cases ha : a.pod.retractCheckVar <;> cases hb : b.pod.retractCheckVar <;>
    simp [effTimestamp, ha, hb, gt_iff_lt]

theorem lessFallthrough_false_iff {a b : QueuedPodInfo} :
    lessFallthrough a b = false ↔
      ¬(b.pod.priority < a.pod.priority ∨
        (a.pod.priority = b.pod.priority ∧ effTimestamp a < effTimestamp b)) := by
  rw [← Bool.not_eq_true, lessFallthrough_iff]

theorem Less_eq_fallthrough {inNode : String → Bool} {x y : QueuedPodInfo}
    {jx jy : String} {mx my : Bool} (hx : checkMPIJob x.pod.name = some (jx, mx))
    (hy : checkMPIJob y.pod.name = some (jy, my))
    (bx : biasApplies inNode x = false) (byy : biasApplies inNode y = false) :
    Less inNode x y = some (lessFallthrough x y) := by
  simp only [biasApplies, hx] at bx
  simp only [biasApplies, hy] at byy
  simp only [Less, hx, hy, bx, byy, Bool.false_eq_true, if_false, ite_self]

/-- **C8 amended**: the queue ordering is asymmetric (never both `Less(a,b)`
and `Less(b,a)`), but incomparability is transitive only away from the
elastic-residency bias: for pods on which the bias cannot fire (no in-node
elastic pod among them), pairwise incomparability of `(a,b)` and `(b,c)`
forces incomparability of `(a,c)`.  With the bias the transitivity fails (see
the counterexample). -/
theorem less_asymmetric_and_incomp_trans_without_bias (inNode : String → Bool)
    (a b c : QueuedPodInfo) :
    (¬(Less inNode a b = some true ∧ Less inNode b a = some true)) ∧
    (biasApplies inNode a = false → biasApplies inNode b = false →
      biasApplies inNode c = false →
      Less inNode a b = some false → Less inNode b a = some false →
      Less inNode b c = some false → Less inNode c b = some false →
      Less inNode a c = some false ∧ Less inNode c a = some false) := by
  constructor
  · rintro ⟨h1, h2⟩
    rw [Less] at h1 h2
    rcases ha : checkMPIJob a.pod.name with _ | ⟨ja, ma⟩ <;>
      rcases hb : checkMPIJob b.pod.name with _ | ⟨jb, mb⟩ <;>
        rw [ha, hb] at h1 h2
    · exact Option.noConfusion h1
    · exact Option.noConfusion h1
    · exact Option.noConfusion h1
    · simp only [Option.some_inj] at h1 h2
      by_cases hm : ma = mb
      · subst hm
        simp only [ne_eq, not_true_eq_false, if_false] at h1 h2
        rw [lessFallthrough_iff] at h1 h2
        omega
      · have hm' : mb ≠ ma := fun h => hm h.symm
        rw [if_pos hm] at h1
        rw [if_pos hm'] at h2
        cases hma : ma && inNode ja
        · rw [hma] at h1 h2
          simp only [Bool.false_eq_true, if_false] at h1 h2
          cases hmb : mb && inNode jb
          · rw [hmb] at h1 h2
            simp only [Bool.false_eq_true, if_false] at h1 h2
            rw [lessFallthrough_iff] at h1 h2
            omega
          · rw [hmb] at h1
            simp only [if_true] at h1
            exact Bool.noConfusion h1
        · rw [hma] at h1 h2
          cases hmb : mb && inNode jb
          · rw [hmb] at h2
            simp only [Bool.false_eq_true, if_false, if_true] at h2
          · simp only [Bool.and_eq_true] at hma hmb
            exact hm (hma.1.trans hmb.1.symm)
  · intro bA bB bC hab hba hbc hcb
    rcases ha : checkMPIJob a.pod.name with _ | ⟨ja, ma⟩
    · rw [Less, ha] at hab
      exact Option.noConfusion hab
    rcases hb : checkMPIJob b.pod.name with _ | ⟨jb, mb⟩
    · rw [Less, ha, hb] at hab
      exact Option.noConfusion hab
    rcases hc : checkMPIJob c.pod.name with _ | ⟨jc, mc⟩
    · rw [Less, hc] at hcb
      exact Option.noConfusion hcb
    rw [Less_eq_fallthrough ha hb bA bB, Option.some_inj, lessFallthrough_false_iff] at hab
    rw [Less_eq_fallthrough hb ha bB bA, Option.some_inj, lessFallthrough_false_iff] at hba
    rw [Less_eq_fallthrough hb hc bB bC, Option.some_inj, lessFallthrough_false_iff] at hbc
    rw [Less_eq_fallthrough hc hb bC bB, Option.some_inj, lessFallthrough_false_iff] at hcb
    rw [Less_eq_fallthrough ha hc bA bC, Less_eq_fallthrough hc ha bC bA]
    refine ⟨?_, ?_⟩ <;> rw [Option.some_inj, lessFallthrough_false_iff] <;> omega

/-- Witness for the amended C8: three non-elastic pods with equal priorities
and timestamps; the bias fires for none of them, pairwise incomparability
holds, and transitivity applies. -/
theorem less_incomp_trans_witness :
    Less (fun _ => false) ⟨⟨"x-p", 0, none⟩, 3⟩ ⟨⟨"z-p", 0, none⟩, 3⟩ = some false ∧
      Less (fun _ => false) ⟨⟨"z-p", 0, none⟩, 3⟩ ⟨⟨"x-p", 0, none⟩, 3⟩ = some false :=
  (less_asymmetric_and_incomp_trans_without_bias (fun _ => false)
    ⟨⟨"x-p", 0, none⟩, 3⟩ ⟨⟨"y-p", 0, none⟩, 3⟩ ⟨⟨"z-p", 0, none⟩, 3⟩).2
    (by decide) (by decide) (by decide) (by decide) (by decide) (by decide) (by decide)

/-- **C8 counterexample**: with job `"a"` resident on a node, take
`A = "a-launcher"` (elastic, resident), `B = "b-launcher"` (elastic, not
resident) and `C = "c-x"` (not elastic), all of equal priority and timestamp.
`A` and `B` are incomparable, `B` and `C` are incomparable, yet
`Less(A, C) = true` — incomparability is not transitive. -/
theorem less_incomparability_not_transitive :
    (Less (fun j => j == "a") ⟨⟨"a-launcher", 0, none⟩, 0⟩ ⟨⟨"b-launcher", 0, none⟩, 0⟩ =
        some false ∧
      Less (fun j => j == "a") ⟨⟨"b-launcher", 0, none⟩, 0⟩ ⟨⟨"a-launcher", 0, none⟩, 0⟩ =
        some false) ∧
    (Less (fun j => j == "a") ⟨⟨"b-launcher", 0, none⟩, 0⟩ ⟨⟨"c-x", 0, none⟩, 0⟩ =
        some false ∧
      Less (fun j => j == "a") ⟨⟨"c-x", 0, none⟩, 0⟩ ⟨⟨"b-launcher", 0, none⟩, 0⟩ =
        some false) ∧
    Less (fun j => j == "a") ⟨⟨"a-launcher", 0, none⟩, 0⟩ ⟨⟨"c-x", 0, none⟩, 0⟩ =
      some true := by decide

end KubeSched
